import Mathlib

/-!
Formal model of the `ocr-mini-service` OCR microservice result pipeline.

The development shallowly embeds the TypeScript sources:

* `src/types/ocr.types.ts` — the data model (`DimensionData`, `TextContent`,
  `DataContent`), the descender table and `calculateBaseline`, the TSV
  normalizer `parseTsvOutput`, and the reading-order sort
  `sortWordsInReadingOrder`;
* `src/ocr/image-recognition.service.ts` — the per-job pipeline
  `_processImageAsync` (isolated adapter failures, overlap filtering
  `_filterOverlappingText` / `_rectanglesOverlap`), the admission control
  (`isProcessing` / `startImageRecognitionOnBuffer` together with the busy
  gate in `src/ocr/ocr.controller.ts`) and the webhook delivery
  `_sendWebhook` / `_handleCompletion` / `_handleError`.

Modelling conventions:

* JavaScript numbers are embedded as exact rationals (`ℚ`).  All constants
  appearing in the code (0.23, 0.0025, divisions by page size and by 100)
  are exact decimal fractions, so the rational embedding is faithful on
  every input whose intermediate values stay within double precision; float
  rounding is outside the scope of this model.  Division by zero (a page
  row reporting width or height 0) yields `Infinity`/`NaN` in JavaScript
  and `0` in `ℚ`; no claim below exercises a zero page dimension.
* `parseInt` may return `NaN` in JavaScript.  We model it as
  `Option Int`.  The `level` field is kept as the `Option` (so a
  non-numeric level is never equal to 5, exactly as `NaN === 5` is false);
  for the coordinate and confidence columns a failed parse is mapped to
  `0` - the claims never exercise non-numeric coordinate columns.
* Strings are processed through their character lists (`String.toList` /
  `String.mk`), mirroring the JavaScript `split`, `trim` and indexing
  operations character by character.  JavaScript indexes UTF-16 units;
  none of the characters involved here leave the basic multilingual plane.
* `nanoid()` produces a fresh random 8-character id per word / job.  Ids
  play no role in any claim; they are modelled by a deterministic counter
  (uniqueness within one run is preserved).
* `Array.prototype.sort` is stable (ECMAScript 2019).  A stable sort by a
  total preorder has a unique result, so it is embedded as Mathlib's
  stable `List.insertionSort` on the corresponding `≤`-by-key relation.
-/

/-! ## JavaScript string / number helpers -/

/-- Digit run value: the number denoted by the leading decimal digits of
`cs`, or `none` if `cs` does not start with a digit. -/
def digitsVal (cs : List Char) : Option Nat :=
  let ds := cs.takeWhile Char.isDigit
  if ds.isEmpty then none
  else some (ds.foldl (fun acc c => acc * 10 + (c.toNat - '0'.toNat)) 0)

/-- Model of JavaScript `parseInt(s)` (radix 10): skip leading whitespace,
optional sign, longest digit run; `none` stands for `NaN`.  (The `0x` hex
special case cannot occur in Tesseract TSV columns.) -/
def parseInt (s : String) : Option Int :=
  match s.toList.dropWhile Char.isWhitespace with
  | '-' :: rest => (digitsVal rest).map (fun n => -(n : Int))
  | '+' :: rest => (digitsVal rest).map (fun n => (n : Int))
  | cs => (digitsVal cs).map (fun n => (n : Int))

/-- The rational value of a numeric column: `parseInt` with a failed parse
mapped to `0` (JavaScript would produce `NaN`; no claim exercises a
non-numeric coordinate/confidence column). -/
def parseIntQ (s : String) : ℚ :=
  (((parseInt s).getD 0 : Int) : ℚ)

/-- Model of JavaScript `s.split(sep)` for a single-character separator,
on the character list.  Empty fields are preserved and `"".split` yields
one empty field, as in JavaScript. -/
def splitOnChar (sep : Char) : List Char → List (List Char)
  | [] => [[]]
  | c :: cs =>
    if c = sep then [] :: splitOnChar sep cs
    else
      match splitOnChar sep cs with
      | [] => [[c]]
      | h :: t => (c :: h) :: t

/-- JavaScript `line.split('\t')`. -/
def splitTab (s : String) : List String :=
  (splitOnChar '\t' s.toList).map String.mk

/-- Model of JavaScript `String.prototype.trim`: strip whitespace from both
ends.  (JavaScript also strips some exotic Unicode spaces; the TSV text
column only carries ASCII whitespace at its ends.) -/
def jsTrim (s : String) : String :=
  String.mk (((s.toList.dropWhile Char.isWhitespace).reverse.dropWhile
    Char.isWhitespace).reverse)

/-- Model of JavaScript `String.prototype.toLowerCase`, character-wise,
restricted to the simple one-to-one case mappings that can put a character
into the descender table below: ASCII `A`-`Z` (via `Char.toLower`) plus
every non-ASCII letter whose Unicode simple lowercase form lies in the
table - `Ç Ģ Ķ Ļ Ą Ę Į Ų Ș Ț Ŋ Ɣ Ƒ`, `Ɡ` (U+A7AC, lowercase `ɡ` U+0261)
and `Ʝ` (U+A7B2, lowercase `ʝ` U+029D).  Every other character is fixed.
(JavaScript lowercases the whole string; for all characters relevant here
the mapping is per-character.) -/
def toLowerCaseChar (c : Char) : Char :=
  match c with
  | 'Ç' => 'ç'
  | 'Ģ' => 'ģ'
  | 'Ķ' => 'ķ'
  | 'Ļ' => 'ļ'
  | 'Ą' => 'ą'
  | 'Ę' => 'ę'
  | 'Į' => 'į'
  | 'Ų' => 'ų'
  | 'Ș' => 'ș'
  | 'Ț' => 'ț'
  | 'Ŋ' => 'ŋ'
  | 'Ɣ' => 'ɣ'
  | 'Ƒ' => 'ƒ'
  | 'Ɡ' => 'ɡ'
  | 'Ʝ' => 'ʝ'
  | _ => c.toLower

/-! ## Data model (`src/types/ocr.types.ts`) -/

/-- `TextContent` of `ocr.types.ts`.  `id` is the `nanoid()` value, modelled
as a counter; `confidence` is always set by the parser. -/
structure TextContent where
  id : Nat
  text : String
  confidence : ℚ
deriving DecidableEq

/-- `DataContent` of `ocr.types.ts` (decoded barcode/QR symbols). -/
structure DataContent where
  id : Nat
  content : String
  type : String
deriving DecidableEq

/-- `DimensionData<T>` of `ocr.types.ts`: an axis-aligned box with optional
baseline and optional payload. -/
structure DimensionData (α : Type) where
  left : ℚ
  top : ℚ
  width : ℚ
  height : ℚ
  baseline : Option ℚ := none
  data : Option α := none
deriving DecidableEq

/-- Word records produced by the normalizer. -/
abbrev WordData := DimensionData TextContent

/-- Code records produced by the code-detection adapter. -/
abbrev CodeData := DimensionData DataContent

/-- `OcrProcessResult`: the merged result stored on a completed job. -/
structure OcrProcessResult where
  words : List WordData
  codes : List CodeData
deriving DecidableEq

/-! ## Baseline estimation (`DESCENDER_CHARS`, `calculateBaseline`) -/

/-- The fixed descender table `DESCENDER_CHARS` of `ocr.types.ts`,
verbatim. -/
def DESCENDER_CHARS : List Char :=
  [ -- lowercase letters
    'g', 'j', 'p', 'q', 'y',
    -- letters with cedilla / comma / ogonek
    'ç', 'ģ', 'ķ', 'ļ', 'ą', 'ę', 'į', 'ų', 'ș', 'ț', 'Ș', 'Ț',
    -- extended Latin / phonetic
    'ŋ', 'ɟ', 'ʝ', 'ɡ', 'ɣ', 'ʄ', 'ȷ',
    -- punctuation
    ',', ';', '‚', '„', '¿',
    -- brackets / delimiters
    '(', ')', '[', ']', '\x7b', '\x7d',
    -- math / technical
    '∫', '∮', '∂', 'ƒ', '₍', '₎',
    -- currency
    '₤', '₺', '₥', '₰' ]

/-- `DESCENDER_FACTOR` (23% of text height). -/
def DESCENDER_FACTOR : ℚ := 0.23

/-- `calculateBaseline(text, top, height)` of `ocr.types.ts`: the text is
lowercased and if any resulting character is in the descender table the
baseline sits `DESCENDER_FACTOR * height` above the bottom edge, otherwise
on the bottom edge. -/
def calculateBaseline (text : String) (top height : ℚ) : ℚ :=
  let hasDescenders :=
    (text.toList.map toLowerCaseChar).any (fun char => DESCENDER_CHARS.contains char)
  if hasDescenders then
    top + height * (1 - DESCENDER_FACTOR)
  else
    top + height

/-! ## Reading-order reconstruction (`sortWordsInReadingOrder`) -/

/-- `BASELINE_TOLERANCE` of `sortWordsInReadingOrder`. -/
def BASELINE_TOLERANCE : ℚ := 0.0025

/-- The TypeScript code reads `word.baseline!` (non-null assertion); every
word built by the parser carries a baseline.  The total stand-in returns
`0` for an absent baseline. -/
def baselineVal (w : DimensionData α) : ℚ :=
  w.baseline.getD 0

/-- One step of the grouping loop of `sortWordsInReadingOrder`: scan the
line groups in order and append the word to the first group whose *first
member* is within `BASELINE_TOLERANCE`, else append a fresh group at the
end.  A group is a pair (first member, later members in insertion
order), mirroring `group[0]` / `group.push`. -/
def addToGroups : List (WordData × List WordData) → WordData → List (WordData × List WordData)
  | [], word => [(word, [])]
  | (h, rest) :: groups, word =>
    if |baselineVal word - baselineVal h| ≤ BASELINE_TOLERANCE then
      (h, rest ++ [word]) :: groups
    else
      (h, rest) :: addToGroups groups word

/-- The single grouping pass over the words, in input order. -/
def lineGroups (words : List WordData) : List (WordData × List WordData) :=
  words.foldl addToGroups []

/-- The members of a line group, in insertion order (`group[0]` first). -/
def groupMembers (g : WordData × List WordData) : List WordData :=
  g.1 :: g.2

/-- The comparator key of the group sort: mean baseline
(`reduce(..)/length`). -/
def meanBaseline (g : WordData × List WordData) : ℚ :=
  ((groupMembers g).map baselineVal).sum / ((groupMembers g).length : ℚ)

/-- Group order: ascending mean baseline (the JavaScript comparator
`avgA - avgB`). -/
def meanLe (a b : WordData × List WordData) : Prop :=
  meanBaseline a ≤ meanBaseline b

/-- In-group order: ascending left edge (the comparator
`a.left - b.left`). -/
def leftLe (a b : WordData) : Prop :=
  a.left ≤ b.left

instance : DecidableRel meanLe :=
  fun a b => inferInstanceAs (Decidable (meanBaseline a ≤ meanBaseline b))

instance : DecidableRel leftLe :=
  fun a b => inferInstanceAs (Decidable (a.left ≤ b.left))

instance : IsTotal (WordData × List WordData) meanLe :=
  ⟨fun a b => le_total (meanBaseline a) (meanBaseline b)⟩

instance : IsTrans (WordData × List WordData) meanLe :=
  ⟨fun _ _ _ h h' => le_trans h h'⟩

instance : IsTotal WordData leftLe :=
  ⟨fun a b => le_total a.left b.left⟩

instance : IsTrans WordData leftLe :=
  ⟨fun _ _ _ h h' => le_trans h h'⟩

/-- `sortWordsInReadingOrder` of `ocr.types.ts`: group words by baseline in
a single pass, sort the groups by mean baseline, sort each group by left
edge, flatten.  JavaScript's stable comparator sorts are embedded as the
stable `List.insertionSort`. -/
def sortWordsInReadingOrder (words : List WordData) : List WordData :=
  if words.isEmpty then words
  else
    let groups := lineGroups words
    let sortedGroups := List.insertionSort meanLe groups
    (sortedGroups.map (fun g => List.insertionSort leftLe (groupMembers g))).flatten

/-! ## TSV normalizer (`parseTsvOutput`) -/

/-- `TesseractTsvLineData` of `ocr.types.ts` after the normalization in the
loop body: the six integer columns keep their `parseInt` result (`none` =
`NaN`), the geometry columns are divided by the page dimensions and the
confidence by 100. -/
structure TesseractTsvLineData where
  level : Option Int
  page_num : Option Int
  block_num : Option Int
  par_num : Option Int
  line_num : Option Int
  word_num : Option Int
  left : ℚ
  top : ℚ
  width : ℚ
  height : ℚ
  conf : ℚ
  text : String
deriving DecidableEq

/-- The `lineData` record built from the 12 tab-separated columns of a row
(the `ALIGN WITH MODEL / NORMALIZE DATA` block of `parseTsvOutput`). -/
def toLineData (pageW pageH : ℚ) (columns : List String) : TesseractTsvLineData :=
  { level := parseInt (columns.getD 0 "")
    page_num := parseInt (columns.getD 1 "")
    block_num := parseInt (columns.getD 2 "")
    par_num := parseInt (columns.getD 3 "")
    line_num := parseInt (columns.getD 4 "")
    word_num := parseInt (columns.getD 5 "")
    left := parseIntQ (columns.getD 6 "") / pageW
    top := parseIntQ (columns.getD 7 "") / pageH
    width := parseIntQ (columns.getD 8 "") / pageW
    height := parseIntQ (columns.getD 9 "") / pageH
    conf := parseIntQ (columns.getD 10 "") / 100
    text := columns.getD 11 "" }

/-- The word record pushed by `parseTsvOutput` for a level-5 row with
non-empty trimmed text (`wordId` models the `nanoid()` call). -/
def buildWord (lineData : TesseractTsvLineData) (wordId : Nat) : WordData :=
  { left := lineData.left
    top := lineData.top
    width := lineData.width
    height := lineData.height
    baseline := some (calculateBaseline (jsTrim lineData.text) lineData.top lineData.height)
    data := some
      { id := wordId
        text := jsTrim lineData.text
        confidence := lineData.conf } }

/-- The row loop of `parseTsvOutput`: skip rows with fewer than 12 columns,
build `lineData`, and push a word exactly for level-5 rows with non-empty
trimmed text. -/
def parseRows (pageW pageH : ℚ) : List String → Nat → List WordData
  | [], _ => []
  | line :: rest, nextWordId =>
    let columns := splitTab line
    if columns.length < 12 then parseRows pageW pageH rest nextWordId
    else
      let lineData := toLineData pageW pageH columns
      if lineData.level = some 5 ∧ jsTrim lineData.text ≠ "" then
        buildWord lineData nextWordId :: parseRows pageW pageH rest (nextWordId + 1)
      else
        parseRows pageW pageH rest nextWordId

/-- The page-size lookup of `parseTsvOutput`: find the first data line whose
first character is `'1'`; if it has exactly 12 columns take columns 8/9 as
the page pixel size, else (0,0).  `none` models the `TypeError` thrown when
no such line exists (`find` returns `undefined` and `.split` throws). -/
def pageSize (dataLines : List String) : Option (ℚ × ℚ) :=
  match dataLines.find? (fun x => x.toList.head? == some '1') with
  | none => none
  | some l0 =>
    let l := splitTab l0
    some (if l.length = 12 then (parseIntQ (l.getD 8 ""), parseIntQ (l.getD 9 "")) else (0, 0))

/-- `parseTsvOutput` of `ocr.types.ts`: drop the header line, locate the
page line, normalize the level-5 rows, and return them in reading order.
When the page-line lookup throws, the `catch` block itself throws (its
`this.logger` is `undefined` in the module function), so the promise is
rejected either way; both are modelled as `Except.error`. -/
def parseTsvOutput (tsvContent : List String) : Except String (List WordData) :=
  match pageSize (tsvContent.drop 1) with
  | none => Except.error "Failed to parse OCR results"
  | some (pageW, pageH) =>
    Except.ok (sortWordsInReadingOrder (parseRows pageW pageH (tsvContent.drop 1) 0))

/-! ## Overlap resolver (`_rectanglesOverlap`, `_filterOverlappingText`) -/

/-- `_rectanglesOverlap` of `image-recognition.service.ts`: the AABB test
with non-strict `<=` on the separating conditions, so exactly touching
edges count as no overlap. -/
def rectanglesOverlap (rect1 : DimensionData α) (rect2 : DimensionData β) : Bool :=
  let rect1Right := rect1.left + rect1.width
  let rect1Bottom := rect1.top + rect1.height
  let rect2Right := rect2.left + rect2.width
  let rect2Bottom := rect2.top + rect2.height
  let noOverlap :=
    decide (rect1Right ≤ rect2.left) || decide (rect2Right ≤ rect1.left) ||
    decide (rect1Bottom ≤ rect2.top) || decide (rect2Bottom ≤ rect1.top)
  !noOverlap

/-- `_filterOverlappingText` of `image-recognition.service.ts`: with no
codes return the text unchanged, else keep exactly the words overlapping no
code. -/
def filterOverlappingText (textResults : List WordData) (codes : List CodeData) : List WordData :=
  if codes.length = 0 then textResults
  else
    textResults.filter (fun textResult => !(codes.any (fun code => rectanglesOverlap textResult code)))

/-- Spec-modelled predicate, following the claim's words: the two
axis-aligned rectangles intersect in a region of positive area (positive
overlap extent on both axes). -/
def hasPositiveAreaIntersection (r1 : DimensionData α) (r2 : DimensionData β) : Prop :=
  max r1.left r2.left < min (r1.left + r1.width) (r2.left + r2.width) ∧
  max r1.top r2.top < min (r1.top + r1.height) (r2.top + r2.height)

instance (r1 : DimensionData α) (r2 : DimensionData β) :
    Decidable (hasPositiveAreaIntersection r1 r2) :=
  inferInstanceAs (Decidable (_ ∧ _))

/-! ## Per-job pipeline (`_processImageAsync`) -/

/-- Job status values (`JobStatus.status` of `return-strategy.types.ts`). -/
inductive JobState
  | processing
  | completed
  | failed
deriving DecidableEq

/-- The terminal record fields written by `_processImageAsync`. -/
structure JobOutcome where
  status : JobState
  result : Option OcrProcessResult
  error : Option String
deriving DecidableEq

/-- The `.catch(() => [])` attached to each adapter promise inside the
`Promise.all`: a rejected adapter degrades to an empty list. -/
def settleEngine (outcome : Except String (List α)) : List α :=
  match outcome with
  | Except.ok v => v
  | Except.error _ => []

/-- The try/catch skeleton of `_processImageAsync`, as a function of the
three effect outcomes: the temp-file write, the text-recognition adapter,
and the code-detection adapter.  A failed write reaches the catch block and
the job fails; each adapter failure is caught separately and degrades to an
empty list, after which the overlap filter runs and the job completes. -/
def processImageAsync (writeOutcome : Except String Unit)
    (textOutcome : Except String (List WordData))
    (codeOutcome : Except String (List CodeData)) : JobOutcome :=
  match writeOutcome with
  | Except.error e => { status := JobState.failed, result := none, error := some e }
  | Except.ok _ =>
    let textResults := settleEngine textOutcome
    let codes := settleEngine codeOutcome
    let filteredTextResults := filterOverlappingText textResults codes
    { status := JobState.completed
      result := some { words := filteredTextResults, codes := codes }
      error := none }

/-! ## Admission control (`isProcessing` busy gate, `startImageRecognitionOnBuffer`) -/

/-- The `BadRequestException` message of the controller's busy gate. -/
def busyMessage : String := "OCR service is busy, please try again later"

/-- The orchestrator's shared mutable state: the `_processing` flag and the
`_jobStatuses` map (job ids modelled as counter values). -/
structure OrchestratorState where
  processing : Bool
  jobStatuses : List (Nat × JobState)
  nextId : Nat
deriving DecidableEq

/-- Initial service state. -/
def initialState : OrchestratorState :=
  { processing := false, jobStatuses := [], nextId := 0 }

/-- The admission path: the controller's busy gate followed by
`startImageRecognitionOnBuffer`.  On busy it throws (no job record is
created - no new state is produced); on admit it creates the job record in
`processing` state, sets the busy flag and returns the fresh job id.  The
gate and the flag update run without an intervening `await`, so the
check-then-act pair is a single step. -/
def submitJob (s : OrchestratorState) : Except String (OrchestratorState × Nat) :=
  if s.processing then Except.error busyMessage
  else
    Except.ok
      ({ processing := true
         jobStatuses := s.jobStatuses ++ [(s.nextId, JobState.processing)]
         nextId := s.nextId + 1 },
       s.nextId)

/-- The terminal step of the job's background task: write the terminal
status into the job record, then release the busy flag in the `finally`
block.  `_sendWebhook` catches every delivery failure, so the record and
the flag do not depend on `deliverySucceeded`. -/
def finishJob (s : OrchestratorState) (jobId : Nat) (succeeded : Bool)
    (_deliverySucceeded : Bool) : OrchestratorState :=
  { processing := false
    jobStatuses := s.jobStatuses.map (fun p =>
      if p.1 = jobId then (p.1, if succeeded then JobState.completed else JobState.failed) else p)
    nextId := s.nextId }

/-- Reachable orchestrator states: from the initial state by admitted
submissions and by terminal steps of a currently processing job (only the
job's own background task finishes it). -/
inductive Reachable : OrchestratorState → Prop
  | init : Reachable initialState
  | submit (s s' : OrchestratorState) (jobId : Nat) :
      Reachable s → submitJob s = Except.ok (s', jobId) → Reachable s'
  | finish (s : OrchestratorState) (jobId : Nat) (succeeded deliverySucceeded : Bool) :
      Reachable s → (jobId, JobState.processing) ∈ s.jobStatuses →
      Reachable (finishJob s jobId succeeded deliverySucceeded)

/-- The orchestrator invariant: the busy flag is set exactly while some job
record is in `processing` state, at most one record is processing, and
every issued id is below the counter. -/
def StateInv (s : OrchestratorState) : Prop :=
  (s.processing = true ↔ ∃ p ∈ s.jobStatuses, p.2 = JobState.processing) ∧
  (∀ p ∈ s.jobStatuses, ∀ q ∈ s.jobStatuses,
     p.2 = JobState.processing → q.2 = JobState.processing → p = q) ∧
  (∀ p ∈ s.jobStatuses, p.1 < s.nextId)

/-! ## Webhook delivery (`_sendWebhook`, `_handleCompletion`, `_handleError`) -/

/-- `ReturnStrategy` of `return-strategy.types.ts`. -/
inductive ReturnStrategy
  | sse
  | webhook
  | polling
deriving DecidableEq

/-- `WebhookPayload` of `return-strategy.types.ts` (`timestamp` modelled as
an abstract clock value). -/
structure WebhookPayload where
  jobId : String
  status : String
  result : Option OcrProcessResult
  error : Option String
  timestamp : Nat
deriving DecidableEq

/-- The outbound HTTP request issued by `_sendWebhook`. -/
structure WebhookRequest where
  url : String
  method : String
  headers : List (String × String)
  body : WebhookPayload
deriving DecidableEq

/-- `_sendWebhook` of `image-recognition.service.ts`: a single POST to
`webhookUrl + "/" + jobId` with the JSON payload, the `Content-Type` header
and the caller headers spread after it (a later entry with the same key
overrides, as the object spread does). -/
def sendWebhook (jobId : String) (status : String) (webhookUrl : String)
    (headers : List (String × String)) (result : Option OcrProcessResult)
    (error : Option String) (timestamp : Nat) : WebhookRequest :=
  { url := webhookUrl ++ "/" ++ jobId
    method := "POST"
    headers := ("Content-Type", "application/json") :: headers
    body :=
      { jobId := jobId
        status := status
        result := result
        error := error
        timestamp := timestamp } }

/-- `_handleCompletion`, restricted to its outbound-POST effect: the
webhook branch issues exactly one `_sendWebhook` call when a webhook URL is
present; the SSE and polling branches issue none. -/
def handleCompletion (jobId : String) (returnStrategy : ReturnStrategy)
    (result : OcrProcessResult) (webhookUrl : Option String)
    (callbackHeaders : List (String × String)) (timestamp : Nat) : List WebhookRequest :=
  match returnStrategy with
  | ReturnStrategy.webhook =>
    match webhookUrl with
    | some url => [sendWebhook jobId "completed" url callbackHeaders (some result) none timestamp]
    | none => []
  | _ => []

/-- `_handleError`, restricted to its outbound-POST effect. -/
def handleError (jobId : String) (returnStrategy : ReturnStrategy)
    (error : String) (webhookUrl : Option String)
    (callbackHeaders : List (String × String)) (timestamp : Nat) : List WebhookRequest :=
  match returnStrategy with
  | ReturnStrategy.webhook =>
    match webhookUrl with
    | some url => [sendWebhook jobId "failed" url callbackHeaders none (some error) timestamp]
    | none => []
  | _ => []

/-! ## Concrete inputs used by the scenario checks -/

/-- A row is a level-5 row when its first column parses to 5. -/
def isLevel5Row (line : String) : Bool :=
  parseInt ((splitTab line).getD 0 "") == some 5

/-- Scenario A of the specification: a header, a page row with pixel box
(0,0,1000,1000) and one word row "Hello" at pixel box (100,50,80,20). -/
def scenarioA : List String :=
  [ "level\tpage_num\tblock_num\tpar_num\tline_num\tword_num\tleft\ttop\twidth\theight\tconf\ttext",
    "1\t1\t0\t0\t0\t0\t0\t0\t1000\t1000\t-1\t",
    "5\t1\t1\t1\t1\t1\t100\t50\t80\t20\t96\tHello" ]

/-- The word record Scenario A expects. -/
def scenarioAWord : WordData :=
  { left := 0.1, top := 0.05, width := 0.08, height := 0.02,
    baseline := some 0.07,
    data := some { id := 0, text := "Hello", confidence := 0.96 } }

/-- The same page as Scenario A with the single word "G": an uppercase
letter outside the descender table whose lowercase form is in it. -/
def descenderCapTsv : List String :=
  [ "level\tpage_num\tblock_num\tpar_num\tline_num\tword_num\tleft\ttop\twidth\theight\tconf\ttext",
    "1\t1\t0\t0\t0\t0\t0\t0\t1000\t1000\t-1\t",
    "5\t1\t1\t1\t1\t1\t100\t50\t80\t20\t96\tG" ]

/-- The word record the code produces for `descenderCapTsv`. -/
def descenderCapWord : WordData :=
  { left := 0.1, top := 0.05, width := 0.08, height := 0.02,
    baseline := some 0.0654,
    data := some { id := 0, text := "G", confidence := 0.96 } }

/-- Tabular input whose only data row is a word row: no line after the
header starts with the character `'1'`. -/
def noPageTsv : List String :=
  [ "level\tpage_num\tblock_num\tpar_num\tline_num\tword_num\tleft\ttop\twidth\theight\tconf\ttext",
    "5\t1\t1\t1\t1\t1\t100\t50\t80\t20\t96\tHello" ]

/-- Two copies of this word share one line group and one left edge. -/
def dupWord : WordData :=
  { left := 0.5, top := 0.4, width := 0.1, height := 0.05,
    baseline := some 0.45,
    data := some { id := 0, text := "twin", confidence := 0.9 } }

/-- A word box strictly inside `codeBox`. -/
def overlapWord : WordData :=
  { left := 0.45, top := 0.45, width := 0.05, height := 0.05,
    baseline := some 0.5,
    data := some { id := 0, text := "noise", confidence := 0.5 } }

/-- A word box sharing only an edge with `codeBox` (left edge at the code's
right edge). -/
def apartWord : WordData :=
  { left := 0.6, top := 0.45, width := 0.1, height := 0.05,
    baseline := some 0.5,
    data := some { id := 1, text := "kept", confidence := 0.9 } }

/-- A detected code box. -/
def codeBox : CodeData :=
  { left := 0.4, top := 0.4, width := 0.2, height := 0.2,
    data := some { id := 0, content := "HTTPS://X", type := "QR_CODE" } }

/-! ## General lemmas about the embedded operations -/

/-- With an empty word list the overlap filter returns the empty list. -/
theorem filterOverlappingText_nil_left (codes : List CodeData) :
    filterOverlappingText [] codes = [] := by
  cases codes <;> rfl

/-- With an empty code list the overlap filter returns the words
unchanged. -/
theorem filterOverlappingText_nil_right (textResults : List WordData) :
    filterOverlappingText textResults [] = textResults := rfl

/-! ## C1 — adapter failure isolation -/

/-- C1 states that a rejected text-recognition adapter fails the job.  In
the code both adapter promises carry `.catch` handlers that degrade to an
empty list, so a job whose text adapter rejects still completes: with a
failed text engine and a clean code engine the terminal status is
`completed`, not `failed`. -/
theorem textEngineFailureDoesNotFailJob :
    (processImageAsync (Except.ok ()) (Except.error "spawn tesseract ENOENT")
        (Except.ok [])).status = JobState.completed ∧
    (processImageAsync (Except.ok ()) (Except.error "spawn tesseract ENOENT")
        (Except.ok [])).status ≠ JobState.failed := by
  exact ⟨rfl, by decide⟩

/-- C1 (amended): each adapter's failure is isolated and degrades, the text
engine included.  If the text adapter rejects the job still completes with
the word list degraded to empty (codes kept as detected); if only the code
adapter rejects the job completes with the code list degraded to empty and
the words untouched.  Only a failed temp-file write fails the job. -/
theorem adapterFailuresDegrade (msg msg' e : String)
    (codeOutcome : Except String (List CodeData)) (textWords : List WordData) :
    processImageAsync (Except.ok ()) (Except.error msg) codeOutcome
        = { status := JobState.completed
            result := some { words := [], codes := settleEngine codeOutcome }
            error := none } ∧
    processImageAsync (Except.ok ()) (Except.ok textWords) (Except.error msg')
        = { status := JobState.completed
            result := some { words := textWords, codes := [] }
            error := none } ∧
    processImageAsync (Except.error e) (Except.ok textWords) codeOutcome
        = { status := JobState.failed, result := none, error := some e } := by
  refine ⟨?_, rfl, rfl⟩
  simp only [processImageAsync, settleEngine]
  rw [filterOverlappingText_nil_left]

/-! ## C3 — overlap resolution -/

/-- For rectangles of positive width and height the code's AABB test holds
exactly when the intersection has positive area; in particular exactly
touching edges fail both sides. -/
theorem rectanglesOverlap_iff {α β : Type} (r1 : DimensionData α) (r2 : DimensionData β)
    (h1w : 0 < r1.width) (h1h : 0 < r1.height)
    (h2w : 0 < r2.width) (h2h : 0 < r2.height) :
    rectanglesOverlap r1 r2 = true ↔ hasPositiveAreaIntersection r1 r2 := by
  unfold rectanglesOverlap hasPositiveAreaIntersection
  simp only [Bool.not_eq_true', Bool.or_eq_false_iff, decide_eq_false_iff_not, not_le,
    max_lt_iff, lt_min_iff]
  constructor
  · rintro ⟨⟨⟨ha, hb⟩, hc⟩, hd⟩
    refine ⟨⟨⟨?_, ?_⟩, ?_, ?_⟩, ⟨?_, ?_⟩, ?_, ?_⟩ <;> linarith
  · rintro ⟨⟨⟨ha, hb⟩, hc, hd⟩, ⟨he, hf⟩, hg, hh⟩
    refine ⟨⟨⟨?_, ?_⟩, ?_⟩, ?_⟩ <;> linarith

/-- Pointwise equal predicates give equal `any` over a list. -/
theorem any_congr_mem {γ : Type} {l : List γ} {f g : γ → Bool}
    (h : ∀ c ∈ l, f c = g c) : l.any f = l.any g := by
  induction l with
  | nil => rfl
  | cons c t ih =>
    simp only [List.any_cons, h c (by simp)]
    rw [ih (fun x hx => h x (by simp [hx]))]

/-- C3: over rectangles (positive width and height), the overlap resolver
removes a word exactly when its box has a positive-area intersection with
some code box; the output is the input filtered by that predicate, so every
non-overlapping word appears unchanged, in order, and edge-touching pairs
survive. -/
theorem overlapFilterIffPositiveArea (textResults : List WordData) (codes : List CodeData)
    (hw : ∀ w ∈ textResults, 0 < w.width ∧ 0 < w.height)
    (hc : ∀ c ∈ codes, 0 < c.width ∧ 0 < c.height) :
    filterOverlappingText textResults codes
        = textResults.filter
            (fun w => !(codes.any (fun c => decide (hasPositiveAreaIntersection w c)))) ∧
    ∀ w ∈ textResults,
      (w ∈ filterOverlappingText textResults codes ↔
        ¬ ∃ c ∈ codes, hasPositiveAreaIntersection w c) := by
  have heq : filterOverlappingText textResults codes
      = textResults.filter
          (fun w => !(codes.any (fun c => decide (hasPositiveAreaIntersection w c)))) := by
    by_cases hc0 : codes.length = 0
    · have hnil : codes = [] := List.length_eq_zero.mp hc0
      subst hnil
      simp [filterOverlappingText]
    · unfold filterOverlappingText
      rw [if_neg hc0]
      apply List.filter_congr
      intro w hwmem
      congr 1
      apply any_congr_mem
      intro c hcmem
      have h1 := hw w hwmem
      have h2 := hc c hcmem
      have hiff := rectanglesOverlap_iff w c h1.1 h1.2 h2.1 h2.2
      by_cases hpa : hasPositiveAreaIntersection w c
      · rw [hiff.mpr hpa, decide_eq_true hpa]
      · have hov : rectanglesOverlap w c = false := by
          rw [← Bool.not_eq_true]
          exact fun hcon => hpa (hiff.mp hcon)
        rw [hov, decide_eq_false hpa]
  refine ⟨heq, ?_⟩
  intro w hwmem
  rw [heq, List.mem_filter]
  simp [hwmem, List.any_eq_true]

/-- C3 witness (Scenario C): a word box strictly inside the code box is
removed while a word box that only shares an edge with it is kept
unchanged. -/
theorem overlapFilterWitness :
    filterOverlappingText [overlapWord, apartWord] [codeBox] = [apartWord] ∧
    overlapWord ∉ filterOverlappingText [overlapWord, apartWord] [codeBox] := by
  have h := overlapFilterIffPositiveArea [overlapWord, apartWord] [codeBox]
    (by
      intro w hwmem
      fin_cases hwmem <;> constructor <;> norm_num [overlapWord, apartWord])
    (by
      intro c hcmem
      fin_cases hcmem
      constructor <;> norm_num [codeBox])
  have heval : filterOverlappingText [overlapWord, apartWord] [codeBox] = [apartWord] := by
    rw [h.1]
    norm_num [List.filter_cons, hasPositiveAreaIntersection, overlapWord, apartWord, codeBox,
      max_def, min_def]
  refine ⟨heval, ?_⟩
  rw [heval]
  norm_num [overlapWord, apartWord]

/-! ## C4 — admission control -/

/-- Every reachable orchestrator state satisfies the invariant. -/
theorem reachable_stateInv (s : OrchestratorState) (hr : Reachable s) : StateInv s := by
  induction hr with
  | init =>
    refine ⟨?_, ?_, ?_⟩
    · simp [initialState]
    · intro p hp
      simp [initialState] at hp
    · intro p hp
      simp [initialState] at hp
  | submit s s' jobId hr hsub ih =>
    obtain ⟨ihFlag, ihOne, ihBound⟩ := ih
    by_cases hb : s.processing
    · simp [submitJob, hb] at hsub
    · rw [submitJob, if_neg hb] at hsub
      rw [Except.ok.injEq, Prod.mk.injEq] at hsub
      obtain ⟨hs', _⟩ := hsub
      have hnone : ¬ ∃ p ∈ s.jobStatuses, p.2 = JobState.processing := by
        intro hex
        have := ihFlag.mpr hex
        simp [hb] at this
      subst hs'
      refine ⟨?_, ?_, ?_⟩
      · constructor
        · intro _
          exact ⟨(s.nextId, JobState.processing), by simp, rfl⟩
        · intro _
          rfl
      · intro p hp q hq hpProc hqProc
        simp only [List.mem_append, List.mem_singleton] at hp hq
        rcases hp with hp | hp
        · exact absurd ⟨p, hp, hpProc⟩ hnone
        · rcases hq with hq | hq
          · exact absurd ⟨q, hq, hqProc⟩ hnone
          · rw [hp, hq]
      · intro p hp
        simp only [List.mem_append, List.mem_singleton] at hp
        rcases hp with hp | hp
        · exact Nat.lt_succ_of_lt (ihBound p hp)
        · rw [hp]
          exact Nat.lt_succ_self _
  | finish s jobId succeeded deliverySucceeded hr hmem ih =>
    obtain ⟨ihFlag, ihOne, ihBound⟩ := ih
    have hterm : ∀ r ∈ (finishJob s jobId succeeded deliverySucceeded).jobStatuses,
        r.2 ≠ JobState.processing := by
      intro r hrmem
      simp only [finishJob, List.mem_map] at hrmem
      obtain ⟨p, hp, hfp⟩ := hrmem
      by_cases hid : p.1 = jobId
      · rw [← hfp]
        simp only [hid, if_pos]
        cases succeeded <;> simp
      · rw [← hfp]
        simp only [hid, if_neg, if_false]
        intro hpProc
        have := ihOne p hp (jobId, JobState.processing) hmem hpProc rfl
        exact hid (congrArg Prod.fst this)
    refine ⟨?_, ?_, ?_⟩
    · constructor
      · intro hfalse
        simp [finishJob] at hfalse
      · intro hex
        obtain ⟨p, hp, hpProc⟩ := hex
        exact absurd hpProc (hterm p hp)
    · intro p hp q hq hpProc
      exact absurd hpProc (hterm p hp)
    · intro p hp
      simp only [finishJob, List.mem_map] at hp
      obtain ⟨q, hq, hfq⟩ := hp
      have hfst : p.1 = q.1 := by
        rw [← hfq]
        by_cases hid : q.1 = jobId <;> simp [hid]
      rw [hfst]
      exact ihBound q hq

/-- C4: in every reachable state in which a job record is `processing`, a
further submission fails with the busy error and creates no record (the
admission path returns the exception without producing a new state); and
after the terminal step of any job the next submission is admitted and
returns a job id distinct from every existing record's id. -/
theorem busyGateAdmission (s : OrchestratorState) (hr : Reachable s) :
    ((∃ p ∈ s.jobStatuses, p.2 = JobState.processing) →
        submitJob s = Except.error busyMessage) ∧
    (∀ jobId succeeded deliverySucceeded,
        ∃ s' newId,
          submitJob (finishJob s jobId succeeded deliverySucceeded)
              = Except.ok (s', newId) ∧
          ∀ p ∈ (finishJob s jobId succeeded deliverySucceeded).jobStatuses,
            p.1 ≠ newId) := by
  obtain ⟨ihFlag, _, ihBound⟩ := reachable_stateInv s hr
  constructor
  · intro hex
    have hb : s.processing = true := ihFlag.mpr hex
    simp [submitJob, hb]
  · intro jobId succeeded deliverySucceeded
    refine ⟨{ processing := true
              jobStatuses := (finishJob s jobId succeeded deliverySucceeded).jobStatuses
                ++ [((finishJob s jobId succeeded deliverySucceeded).nextId, JobState.processing)]
              nextId := (finishJob s jobId succeeded deliverySucceeded).nextId + 1 },
            (finishJob s jobId succeeded deliverySucceeded).nextId, rfl, ?_⟩
    intro p hp
    simp only [finishJob, List.mem_map] at hp
    obtain ⟨q, hq, hfq⟩ := hp
    have hfst : p.1 = q.1 := by
      rw [← hfq]
      by_cases hid : q.1 = jobId <;> simp [hid]
    have hlt : p.1 < s.nextId := by
      rw [hfst]
      exact ihBound q hq
    simp only [finishJob]
    omega

/-- C4 witness: starting from the initial state, admit one job; while it is
processing a second submission fails with the busy error, and after its
terminal step the next submission is admitted with a fresh id. -/
theorem busyGateAdmissionWitness :
    submitJob { processing := true, jobStatuses := [(0, JobState.processing)], nextId := 1 }
        = Except.error busyMessage := by
  have hr1 : Reachable { processing := true, jobStatuses := [(0, JobState.processing)], nextId := 1 } := by
    refine Reachable.submit initialState _ 0 Reachable.init ?_
    rfl
  exact (busyGateAdmission _ hr1).1 ⟨(0, JobState.processing), by simp, rfl⟩

/-! ## C2 — reading-order reconstruction -/

/-- Flattening respects pointwise permutation of the mapped lists. -/
theorem flatten_map_perm {γ : Type} (gs : List γ) (f g : γ → List WordData)
    (h : ∀ x, (f x).Perm (g x)) : ((gs.map f).flatten).Perm ((gs.map g).flatten) := by
  induction gs with
  | nil => simp
  | cons a t ih =>
    simp only [List.map_cons, List.flatten_cons]
    exact (h a).append ih

/-- Appending a word to the line groups inserts it at one position of the
flattened member list. -/
theorem addToGroups_flatten (gs : List (WordData × List WordData)) (w : WordData) :
    ∃ l₁ l₂, (gs.map groupMembers).flatten = l₁ ++ l₂ ∧
      ((addToGroups gs w).map groupMembers).flatten = l₁ ++ w :: l₂ := by
  induction gs with
  | nil =>
    exact ⟨[], [], by simp, by simp [addToGroups, groupMembers]⟩
  | cons g t ih =>
    obtain ⟨h, rest⟩ := g
    by_cases htol : |baselineVal w - baselineVal h| ≤ BASELINE_TOLERANCE
    · refine ⟨h :: rest, (t.map groupMembers).flatten, by simp [groupMembers], ?_⟩
      simp [addToGroups, htol, groupMembers]
    · obtain ⟨l₁, l₂, h1, h2⟩ := ih
      refine ⟨groupMembers (h, rest) ++ l₁, l₂, ?_, ?_⟩
      · simp [h1]
      · simp [addToGroups, htol, h2]

/-- The grouping pass only redistributes the words: flattening the groups
grown from `gs` by `words` permutes the flattened `gs` followed by
`words`. -/
theorem foldl_addToGroups_flatten_perm :
    ∀ (words : List WordData) (gs : List (WordData × List WordData)),
      (((words.foldl addToGroups gs).map groupMembers).flatten).Perm
        ((gs.map groupMembers).flatten ++ words) := by
  intro words
  induction words with
  | nil =>
    intro gs
    simp
  | cons w ws ih =>
    intro gs
    obtain ⟨l₁, l₂, h1, h2⟩ := addToGroups_flatten gs w
    rw [List.foldl_cons]
    refine ((ih (addToGroups gs w)).trans ?_)
    rw [h1, h2]
    have p2 : List.Perm ((l₁ ++ l₂) ++ w :: ws) (w :: ((l₁ ++ l₂) ++ ws)) :=
      List.perm_middle
    refine List.Perm.trans ?_ p2.symm
    have e1 : (l₁ ++ w :: l₂) ++ ws = l₁ ++ w :: (l₂ ++ ws) := by simp
    rw [e1, List.append_assoc l₁ l₂ ws]
    exact List.perm_middle

/-- The reading-order sort permutes its input. -/
theorem sortWordsInReadingOrder_perm (words : List WordData) :
    (sortWordsInReadingOrder words).Perm words := by
  by_cases he : words.isEmpty
  · unfold sortWordsInReadingOrder
    rw [if_pos he]
  · unfold sortWordsInReadingOrder
    rw [if_neg he]
    have h1 : (((List.insertionSort meanLe (lineGroups words)).map
          (fun g => List.insertionSort leftLe (groupMembers g))).flatten).Perm
        (((List.insertionSort meanLe (lineGroups words)).map groupMembers).flatten) :=
      flatten_map_perm _ _ _ (fun g => List.perm_insertionSort leftLe (groupMembers g))
    have h2 : (((List.insertionSort meanLe (lineGroups words)).map groupMembers).flatten).Perm
        (((lineGroups words).map groupMembers).flatten) :=
      ((List.perm_insertionSort meanLe (lineGroups words)).map groupMembers).flatten
    have h3 := foldl_addToGroups_flatten_perm words []
    exact h1.trans (h2.trans (by simpa [lineGroups] using h3))

/-- C2 (amended): the reading-order sort is exactly the described pipeline:
the single grouping pass `lineGroups` (each word joins the first group
whose first member's baseline is within 0.0025, else opens a new group),
the groups stably sorted by ascending mean baseline - so all words of a
group with strictly smaller mean baseline precede those of a larger one -
each group stably sorted by ascending left edge, and the result flattened
and a permutation of the input.  The in-group order is non-decreasing in
`left` (the claim's "strictly ascending" fails only for words sharing a
left edge; see the counterexample). -/
theorem readingOrderStructure (words : List WordData) :
    sortWordsInReadingOrder words
        = ((List.insertionSort meanLe (lineGroups words)).map
            (fun g => List.insertionSort leftLe (groupMembers g))).flatten ∧
    List.Sorted meanLe (List.insertionSort meanLe (lineGroups words)) ∧
    (∀ g, List.Sorted leftLe (List.insertionSort leftLe (groupMembers g))) ∧
    (sortWordsInReadingOrder words).Perm words := by
  refine ⟨?_, List.sorted_insertionSort meanLe _,
    fun g => List.sorted_insertionSort leftLe _, sortWordsInReadingOrder_perm words⟩
  by_cases he : words.isEmpty
  · have hw : words = [] := List.isEmpty_iff.mp he
    subst hw
    rfl
  · unfold sortWordsInReadingOrder
    rw [if_neg he]

/-- C2 states the output is strictly ascending in `left` inside each line
group.  Two words with equal baseline and equal left edge land in one
group, and the flattened output is not strictly ascending. -/
theorem readingOrderNotStrict :
    sortWordsInReadingOrder [dupWord, dupWord] = [dupWord, dupWord] ∧
    ¬ List.Pairwise (fun a b : WordData => a.left < b.left)
        (sortWordsInReadingOrder [dupWord, dupWord]) := by
  have he : sortWordsInReadingOrder [dupWord, dupWord] = [dupWord, dupWord] := by
    norm_num [sortWordsInReadingOrder, lineGroups, addToGroups, groupMembers, baselineVal,
      dupWord, BASELINE_TOLERANCE, List.insertionSort, List.orderedInsert, meanLe, leftLe,
      meanBaseline]
  refine ⟨he, ?_⟩
  rw [he]
  intro hp
  have h1 := (List.pairwise_cons.mp hp).1 dupWord (List.mem_singleton.mpr rfl)
  exact absurd h1 (lt_irrefl _)

/-! ## C9 — webhook delivery -/

/-- C9 states that the outbound POST targets the caller-supplied webhook
URL.  The code posts to `webhookUrl + "/" + jobId`: for job `abc123` and
target `https://example.com/cb` the request URL is
`https://example.com/cb/abc123`, which differs from the target. -/
theorem webhookUrlAppendsJobId :
    (handleCompletion "abc123" ReturnStrategy.webhook { words := [], codes := [] }
        (some "https://example.com/cb") [] 7).map WebhookRequest.url
      = ["https://example.com/cb/abc123"] ∧
    "https://example.com/cb/abc123" ≠ "https://example.com/cb" := by
  exact ⟨by decide, by decide⟩

/-- C9 (amended): for a webhook-strategy job with a caller-supplied target,
reaching a terminal state issues exactly one outbound POST whose URL is the
target with `/` and the job id appended, carrying the payload
(jobId, status, result?, error?, timestamp), the
`Content-Type: application/json` header with the caller headers merged in;
and the job record written by the terminal step does not depend on the
delivery outcome (`_sendWebhook` swallows every delivery failure). -/
theorem webhookDeliveryShape (jobId : String) (result : OcrProcessResult) (err : String)
    (url : String) (headers : List (String × String)) (ts : Nat) :
    handleCompletion jobId ReturnStrategy.webhook result (some url) headers ts
        = [{ url := url ++ "/" ++ jobId
             method := "POST"
             headers := ("Content-Type", "application/json") :: headers
             body := { jobId := jobId, status := "completed", result := some result,
                       error := none, timestamp := ts } }] ∧
    handleError jobId ReturnStrategy.webhook err (some url) headers ts
        = [{ url := url ++ "/" ++ jobId
             method := "POST"
             headers := ("Content-Type", "application/json") :: headers
             body := { jobId := jobId, status := "failed", result := none,
                       error := some err, timestamp := ts } }] ∧
    (∀ s j ok, finishJob s j ok true = finishJob s j ok false) := by
  exact ⟨rfl, rfl, fun _ _ _ => rfl⟩

/-! ## Origin of parsed words (shared by C5-C8) -/

/-- A successful parse returns the normalized rows in reading order. -/
theorem parseTsvOutput_ok {tsvContent : List String} {pageW pageH : ℚ}
    {words : List WordData}
    (hp : pageSize (tsvContent.drop 1) = some (pageW, pageH))
    (hok : parseTsvOutput tsvContent = Except.ok words) :
    words = sortWordsInReadingOrder (parseRows pageW pageH (tsvContent.drop 1) 0) := by
  unfold parseTsvOutput at hok
  simp only [hp, Except.ok.injEq] at hok
  exact hok.symm

/-- A successfully parsed numeric column contributes its integer value. -/
theorem parseIntQ_of_parseInt {s : String} {n : Int} (h : parseInt s = some n) :
    parseIntQ s = (n : ℚ) := by
  unfold parseIntQ
  rw [h]
  rfl

/-- Every word produced by the row loop comes from a row with at least 12
columns, level 5 and non-empty trimmed text, and is the `buildWord` of that
row. -/
theorem mem_parseRows {pageW pageH : ℚ} :
    ∀ {lines : List String} {n : Nat} {w : WordData},
      w ∈ parseRows pageW pageH lines n →
      ∃ line ∈ lines, ∃ k : Nat,
        ¬ (splitTab line).length < 12 ∧
        (toLineData pageW pageH (splitTab line)).level = some 5 ∧
        jsTrim (toLineData pageW pageH (splitTab line)).text ≠ "" ∧
        w = buildWord (toLineData pageW pageH (splitTab line)) k := by
  intro lines
  induction lines with
  | nil =>
    intro n w hw
    simp [parseRows] at hw
  | cons line rest ih =>
    intro n w hw
    simp only [parseRows] at hw
    by_cases h12 : (splitTab line).length < 12
    · rw [if_pos h12] at hw
      obtain ⟨l, hl, k, hk⟩ := ih hw
      exact ⟨l, List.mem_cons_of_mem line hl, k, hk⟩
    · rw [if_neg h12] at hw
      by_cases hcond : (toLineData pageW pageH (splitTab line)).level = some 5 ∧
          jsTrim (toLineData pageW pageH (splitTab line)).text ≠ ""
      · rw [if_pos hcond] at hw
        rcases List.mem_cons.mp hw with hw1 | hw2
        · exact ⟨line, List.mem_cons_self line rest, n, h12, hcond.1, hcond.2, hw1⟩
        · obtain ⟨l, hl, k, hk⟩ := ih hw2
          exact ⟨l, List.mem_cons_of_mem line hl, k, hk⟩
      · rw [if_neg hcond] at hw
        obtain ⟨l, hl, k, hk⟩ := ih hw
        exact ⟨l, List.mem_cons_of_mem line hl, k, hk⟩

/-- The row loop emits at most one word per level-5 row. -/
theorem parseRows_length_le (pageW pageH : ℚ) :
    ∀ (lines : List String) (n : Nat),
      (parseRows pageW pageH lines n).length ≤ lines.countP isLevel5Row := by
  intro lines
  induction lines with
  | nil =>
    intro n
    simp [parseRows]
  | cons line rest ih =>
    intro n
    have hcount : rest.countP isLevel5Row ≤ (line :: rest).countP isLevel5Row := by
      rw [List.countP_cons]
      omega
    simp only [parseRows]
    by_cases h12 : (splitTab line).length < 12
    · rw [if_pos h12]
      exact le_trans (ih n) hcount
    · rw [if_neg h12]
      by_cases hcond : (toLineData pageW pageH (splitTab line)).level = some 5 ∧
          jsTrim (toLineData pageW pageH (splitTab line)).text ≠ ""
      · rw [if_pos hcond]
        have h5 : isLevel5Row line = true := by
          have hlvl : parseInt ((splitTab line).getD 0 "") = some 5 := hcond.1
          unfold isLevel5Row
          rw [hlvl]
          rfl
        rw [List.countP_cons, if_pos h5, List.length_cons]
        exact Nat.succ_le_succ (ih (n + 1))
      · rw [if_neg hcond]
        exact le_trans (ih n) hcount

/-! ## C5 — descender classification is case-insensitive -/

/-- C5 states the descender branch fires exactly when the trimmed text
contains a character of the fixed descender set.  The code lowercases the
text first: the word "G" contains no character of the set, yet its baseline
is `top + height*(1 - 0.23)`, not the claimed `top + height`. -/
theorem baselineDescenderSetMismatch :
    parseTsvOutput descenderCapTsv = Except.ok [descenderCapWord] ∧
    (∀ c ∈ (jsTrim "G").toList, c ∉ DESCENDER_CHARS) ∧
    descenderCapWord.baseline
        = some (descenderCapWord.top + descenderCapWord.height * (1 - DESCENDER_FACTOR)) ∧
    descenderCapWord.baseline ≠ some (descenderCapWord.top + descenderCapWord.height) := by
  have h0 : parseTsvOutput descenderCapTsv
      = Except.ok [buildWord (toLineData (parseIntQ "1000") (parseIntQ "1000")
          (splitTab "5\t1\t1\t1\t1\t1\t100\t50\t80\t20\t96\tG")) 0] := rfl
  have hsplit : splitTab "5\t1\t1\t1\t1\t1\t100\t50\t80\t20\t96\tG"
      = ["5", "1", "1", "1", "1", "1", "100", "50", "80", "20", "96", "G"] := by decide
  have htrim : jsTrim "G" = "G" := by decide
  have hdesc : (("G".toList.map toLowerCaseChar).any
      (fun char => DESCENDER_CHARS.contains char)) = true := by decide
  have q1000 : parseIntQ "1000" = ((1000 : Int) : ℚ) := parseIntQ_of_parseInt (by decide)
  have q100 : parseIntQ "100" = ((100 : Int) : ℚ) := parseIntQ_of_parseInt (by decide)
  have q50 : parseIntQ "50" = ((50 : Int) : ℚ) := parseIntQ_of_parseInt (by decide)
  have q80 : parseIntQ "80" = ((80 : Int) : ℚ) := parseIntQ_of_parseInt (by decide)
  have q20 : parseIntQ "20" = ((20 : Int) : ℚ) := parseIntQ_of_parseInt (by decide)
  have q96 : parseIntQ "96" = ((96 : Int) : ℚ) := parseIntQ_of_parseInt (by decide)
  refine ⟨?_, by decide, ?_, ?_⟩
  · rw [h0, hsplit]
    simp only [Except.ok.injEq, List.cons.injEq, and_true]
    unfold buildWord toLineData descenderCapWord
    simp only [List.getD_cons_zero, List.getD_cons_succ, htrim]
    unfold calculateBaseline
    rw [hdesc]
    simp only [if_true]
    norm_num [q1000, q100, q50, q80, q20, q96, DESCENDER_FACTOR, DimensionData.mk.injEq,
      TextContent.mk.injEq]
  · norm_num [descenderCapWord, DESCENDER_FACTOR]
  · norm_num [descenderCapWord]

/-- C5 (amended): for every word produced by the normalizer, the baseline
is `top + height*(1 - 0.23)` when the lowercased trimmed text contains a
character of the fixed descender set, and `top + height` otherwise. -/
theorem baselineByLowercasedDescenders (tsvContent : List String) (pageW pageH : ℚ)
    (words : List WordData)
    (hp : pageSize (tsvContent.drop 1) = some (pageW, pageH))
    (hok : parseTsvOutput tsvContent = Except.ok words) :
    ∀ w ∈ words, ∀ tc, w.data = some tc →
      w.baseline = some
        (if (tc.text.toList.map toLowerCaseChar).any
            (fun char => DESCENDER_CHARS.contains char)
         then w.top + w.height * (1 - DESCENDER_FACTOR)
         else w.top + w.height) := by
  intro w hw tc htc
  have hw' : w ∈ parseRows pageW pageH (tsvContent.drop 1) 0 := by
    rw [parseTsvOutput_ok hp hok] at hw
    exact (sortWordsInReadingOrder_perm _).mem_iff.mp hw
  obtain ⟨line, _, k, _, _, _, hbw⟩ := mem_parseRows hw'
  subst hbw
  simp only [buildWord, Option.some.injEq] at htc
  rw [← htc]
  simp only [buildWord, calculateBaseline]

/-- C5 witness: the amended statement applied to Scenario A's input, whose
word "Hello" has no descenders even after lowercasing, giving baseline
`top + height`. -/
theorem baselineByLowercasedDescendersWitness :
    ∃ words, parseTsvOutput scenarioA = Except.ok words ∧
      ∀ w ∈ words, ∀ tc, w.data = some tc →
        w.baseline = some
          (if (tc.text.toList.map toLowerCaseChar).any
              (fun char => DESCENDER_CHARS.contains char)
           then w.top + w.height * (1 - DESCENDER_FACTOR)
           else w.top + w.height) := by
  refine ⟨_, rfl, ?_⟩
  exact baselineByLowercasedDescenders scenarioA (parseIntQ "1000") (parseIntQ "1000") _ rfl rfl

/-! ## C6 — the baseline stays inside the box -/

/-- The baseline heuristic stays within the box for non-negative height. -/
theorem calculateBaseline_bounds (text : String) (top height : ℚ) (hh : 0 ≤ height) :
    top ≤ calculateBaseline text top height ∧
    calculateBaseline text top height ≤ top + height := by
  unfold calculateBaseline
  simp only [DESCENDER_FACTOR]
  split
  · constructor <;> nlinarith
  · constructor <;> linarith

/-- C6: every word produced by the normalizer whose parsed height is
non-negative has its baseline between `top` and `top + height`. -/
theorem baselineWithinBox (tsvContent : List String) (pageW pageH : ℚ)
    (words : List WordData)
    (hp : pageSize (tsvContent.drop 1) = some (pageW, pageH))
    (hok : parseTsvOutput tsvContent = Except.ok words) :
    ∀ w ∈ words, ∀ b, w.baseline = some b → 0 ≤ w.height →
      w.top ≤ b ∧ b ≤ w.top + w.height := by
  intro w hw b hb hh
  have hw' : w ∈ parseRows pageW pageH (tsvContent.drop 1) 0 := by
    rw [parseTsvOutput_ok hp hok] at hw
    exact (sortWordsInReadingOrder_perm _).mem_iff.mp hw
  obtain ⟨line, _, k, _, _, _, hbw⟩ := mem_parseRows hw'
  subst hbw
  simp only [buildWord, Option.some.injEq] at hb
  have hbnd := calculateBaseline_bounds
    (jsTrim (toLineData pageW pageH (splitTab line)).text)
    (toLineData pageW pageH (splitTab line)).top
    (toLineData pageW pageH (splitTab line)).height (by exact hh)
  rw [← hb]
  exact hbnd

/-- C6 witness: the bound instantiated on Scenario A's parsed output. -/
theorem baselineWithinBoxWitness :
    ∃ words, parseTsvOutput scenarioA = Except.ok words ∧
      ∀ w ∈ words, ∀ b, w.baseline = some b → 0 ≤ w.height →
        w.top ≤ b ∧ b ≤ w.top + w.height := by
  refine ⟨_, rfl, ?_⟩
  exact baselineWithinBox scenarioA (parseIntQ "1000") (parseIntQ "1000") _ rfl rfl

/-! ## C7 — normalization divides by the page dimensions -/

/-- C7: every word produced by the normalizer carries the pixel columns of
its level-5 row divided by the page pixel width (for `left`/`width`),
height (for `top`/`height`) and by 100 (for `confidence`); and on Scenario
A's input the output is exactly the one expected word. -/
theorem normalizationDividesByPage :
    (∀ (tsvContent : List String) (pageW pageH : ℚ) (words : List WordData),
      pageSize (tsvContent.drop 1) = some (pageW, pageH) →
      parseTsvOutput tsvContent = Except.ok words →
      ∀ w ∈ words, ∃ line ∈ tsvContent.drop 1, ∃ k : Nat,
        w = buildWord (toLineData pageW pageH (splitTab line)) k ∧
        w.left = parseIntQ ((splitTab line).getD 6 "") / pageW ∧
        w.top = parseIntQ ((splitTab line).getD 7 "") / pageH ∧
        w.width = parseIntQ ((splitTab line).getD 8 "") / pageW ∧
        w.height = parseIntQ ((splitTab line).getD 9 "") / pageH ∧
        ∃ tc, w.data = some tc ∧
          tc.confidence = parseIntQ ((splitTab line).getD 10 "") / 100) ∧
    parseTsvOutput scenarioA = Except.ok [scenarioAWord] := by
  constructor
  · intro tsvContent pageW pageH words hp hok w hw
    have hw' : w ∈ parseRows pageW pageH (tsvContent.drop 1) 0 := by
      rw [parseTsvOutput_ok hp hok] at hw
      exact (sortWordsInReadingOrder_perm _).mem_iff.mp hw
    obtain ⟨line, hline, k, _, _, _, hbw⟩ := mem_parseRows hw'
    refine ⟨line, hline, k, hbw, ?_, ?_, ?_, ?_, ?_⟩ <;> subst hbw
    · rfl
    · rfl
    · rfl
    · rfl
    · exact ⟨_, rfl, rfl⟩
  · have h0 : parseTsvOutput scenarioA
        = Except.ok [buildWord (toLineData (parseIntQ "1000") (parseIntQ "1000")
            (splitTab "5\t1\t1\t1\t1\t1\t100\t50\t80\t20\t96\tHello")) 0] := rfl
    have hsplit : splitTab "5\t1\t1\t1\t1\t1\t100\t50\t80\t20\t96\tHello"
        = ["5", "1", "1", "1", "1", "1", "100", "50", "80", "20", "96", "Hello"] := by decide
    have htrim : jsTrim "Hello" = "Hello" := by decide
    have hdesc : (("Hello".toList.map toLowerCaseChar).any
        (fun char => DESCENDER_CHARS.contains char)) = false := by decide
    have q1000 : parseIntQ "1000" = ((1000 : Int) : ℚ) := parseIntQ_of_parseInt (by decide)
    have q100 : parseIntQ "100" = ((100 : Int) : ℚ) := parseIntQ_of_parseInt (by decide)
    have q50 : parseIntQ "50" = ((50 : Int) : ℚ) := parseIntQ_of_parseInt (by decide)
    have q80 : parseIntQ "80" = ((80 : Int) : ℚ) := parseIntQ_of_parseInt (by decide)
    have q20 : parseIntQ "20" = ((20 : Int) : ℚ) := parseIntQ_of_parseInt (by decide)
    have q96 : parseIntQ "96" = ((96 : Int) : ℚ) := parseIntQ_of_parseInt (by decide)
    rw [h0, hsplit]
    simp only [Except.ok.injEq, List.cons.injEq, and_true]
    unfold buildWord toLineData scenarioAWord
    simp only [List.getD_cons_zero, List.getD_cons_succ, htrim]
    unfold calculateBaseline
    rw [hdesc]
    simp only [Bool.false_eq_true, if_false]
    norm_num [q1000, q100, q50, q80, q20, q96, DimensionData.mk.injEq, TextContent.mk.injEq]

/-- C7 witness: the general part applied to Scenario A, giving the origin
row of its single word. -/
theorem normalizationDividesByPageWitness :
    ∃ w words, parseTsvOutput scenarioA = Except.ok words ∧ w ∈ words ∧
      ∃ line ∈ scenarioA.drop 1, ∃ k : Nat,
        w = buildWord (toLineData (parseIntQ "1000") (parseIntQ "1000") (splitTab line)) k ∧
        w.left = parseIntQ ((splitTab line).getD 6 "") / parseIntQ "1000" ∧
        w.top = parseIntQ ((splitTab line).getD 7 "") / parseIntQ "1000" ∧
        w.width = parseIntQ ((splitTab line).getD 8 "") / parseIntQ "1000" ∧
        w.height = parseIntQ ((splitTab line).getD 9 "") / parseIntQ "1000" ∧
        ∃ tc, w.data = some tc ∧
          tc.confidence = parseIntQ ((splitTab line).getD 10 "") / 100 := by
  obtain ⟨hgen, hscen⟩ := normalizationDividesByPage
  refine ⟨_, _, hscen, List.mem_singleton.mpr rfl, ?_⟩
  have h := hgen scenarioA (parseIntQ "1000") (parseIntQ "1000")
    [scenarioAWord] rfl hscen scenarioAWord (List.mem_singleton.mpr rfl)
  exact h

/-! ## C8 — only level-5 rows with text become words -/

/-- C8: every output word originates in a level-5 data row with non-empty
trimmed text, and the number of output words is at most the number of
level-5 data rows. -/
theorem levelFiveRowsOnly (tsvContent : List String) (pageW pageH : ℚ)
    (words : List WordData)
    (hp : pageSize (tsvContent.drop 1) = some (pageW, pageH))
    (hok : parseTsvOutput tsvContent = Except.ok words) :
    words.length ≤ (tsvContent.drop 1).countP isLevel5Row ∧
    ∀ w ∈ words, ∃ line ∈ tsvContent.drop 1, ∃ k : Nat,
      isLevel5Row line = true ∧
      jsTrim ((splitTab line).getD 11 "") ≠ "" ∧
      w = buildWord (toLineData pageW pageH (splitTab line)) k := by
  have hwords := parseTsvOutput_ok hp hok
  constructor
  · rw [hwords, (sortWordsInReadingOrder_perm _).length_eq]
    exact parseRows_length_le pageW pageH _ 0
  · intro w hw
    have hw' : w ∈ parseRows pageW pageH (tsvContent.drop 1) 0 := by
      rw [hwords] at hw
      exact (sortWordsInReadingOrder_perm _).mem_iff.mp hw
    obtain ⟨line, hline, k, _, hlvl, htext, hbw⟩ := mem_parseRows hw'
    refine ⟨line, hline, k, ?_, ?_, hbw⟩
    · unfold isLevel5Row
      have : parseInt ((splitTab line).getD 0 "") = some 5 := hlvl
      rw [this]
      rfl
    · exact htext

/-- C8 witness: the bound and the origin instantiated on Scenario A (one
word from one level-5 row). -/
theorem levelFiveRowsOnlyWitness :
    ∃ words, parseTsvOutput scenarioA = Except.ok words ∧
      words.length ≤ (scenarioA.drop 1).countP isLevel5Row := by
  refine ⟨_, rfl, ?_⟩
  exact (levelFiveRowsOnly scenarioA (parseIntQ "1000") (parseIntQ "1000") _ rfl rfl).1

/-! ## C10 — the parser throws without a page row -/

/-- C10: when no line after the header row begins with the character `'1'`
the page lookup dereferences `undefined` and `parseTsvOutput` rejects
instead of returning a word list. -/
theorem parseThrowsWithoutPageRow (tsvContent : List String)
    (h : ∀ line ∈ tsvContent.drop 1, line.toList.head? ≠ some '1') :
    ∃ msg, parseTsvOutput tsvContent = Except.error msg := by
  refine ⟨"Failed to parse OCR results", ?_⟩
  have hf : (tsvContent.drop 1).find? (fun x => x.toList.head? == some '1') = none :=
    List.find?_eq_none.mpr (fun x hx => by simpa using h x hx)
  have hp : pageSize (tsvContent.drop 1) = none := by
    unfold pageSize
    rw [hf]
  have hp' : pageSize tsvContent.tail = none := by
    rw [← List.drop_one]
    exact hp
  simp [parseTsvOutput, hp, hp']

/-- C10 witness: a header plus a single word row has no line starting with
`'1'`, and the parser rejects it. -/
theorem parseThrowsWithoutPageRowWitness :
    (∀ line ∈ noPageTsv.drop 1, line.toList.head? ≠ some '1') ∧
    ∃ msg, parseTsvOutput noPageTsv = Except.error msg := by
  exact ⟨by decide, parseThrowsWithoutPageRow noPageTsv (by decide)⟩
